import Mathlib

/-!
Verification development for the Samla static-site generator.

The definitions below are shallow embeddings of the Python source under
generator/: the freshness cache (generator/cache.py), the shortcode
tokenizer/expander (generator/shortcode_manager.py plus the handlers in
generator/shortcodes/), the content model (generator/models.py), URL
construction (generator/content_loader.py) and the reference resolver,
pagination window and related-items ranking (generator/site_builder.py).

Machine floats from the source (file modification times, review ratings)
are modelled as rationals; Python dicts are modelled as association lists
whose insert overwrites the existing binding; diagnostics printed by the
source are modelled as an explicit list of messages returned next to the
main result.
-/

/-! ### Association lists: the model of Python dicts

Python dict assignment `d[k] = v` overwrites the binding of `k` while
keeping the key in its original position; lookup returns the bound value.
-/

/-- Insert or overwrite the binding of key `k`, the model of `d[k] = v`. -/
def dictInsert {α : Type} (m : List (String × α)) (k : String) (v : α) :
    List (String × α) :=
  match m with
  | [] => [(k, v)]
  | (k', v') :: rest =>
      if k' = k then (k', v) :: rest else (k', v') :: dictInsert rest k v

/-- Lookup of key `k`, the model of `d.get(k)`. -/
def dictLookup {α : Type} (m : List (String × α)) (k : String) : Option α :=
  match m with
  | [] => none
  | (k', v') :: rest => if k' = k then some v' else dictLookup rest k

theorem dictLookup_dictInsert {α : Type} (m : List (String × α)) (k k' : String) (v : α) :
    dictLookup (dictInsert m k v) k' = if k' = k then some v else dictLookup m k' := by
  induction m with
  | nil =>
      by_cases h : k' = k
      · simp [dictInsert, dictLookup, h]
      · have h2 : ¬ k = k' := fun hh => h hh.symm
        simp [dictInsert, dictLookup, h, h2]
  | cons p rest ih =>
      obtain ⟨pk, pv⟩ := p
      by_cases h1 : pk = k
      · subst h1
        by_cases h2 : k' = pk
        · simp [dictInsert, dictLookup, h2]
        · have h3 : ¬ pk = k' := fun hh => h2 hh.symm
          simp [dictInsert, dictLookup, h2, h3]
      · by_cases h2 : pk = k'
        · have h3 : ¬ k' = k := fun hh => h1 (h2.trans hh)
          simp [dictInsert, dictLookup, h1, h2, h3]
        · simp [dictInsert, dictLookup, h1, h2, ih]

/-! ### Stable sort: the model of Python list.sort

Python sorting is stable; its observable result is the unique stable
ordering by the sort key, which insertion sort computes. `r x y = true`
reads: `x` may come before `y` (so ties must be `true` for stability). -/

/-- Insert `x` (originally located before every element of the sorted tail)
at the first position compatible with `r`. -/
def insertStable {α : Type} (r : α → α → Bool) (x : α) : List α → List α
  | [] => [x]
  | y :: ys => if r x y then x :: y :: ys else y :: insertStable r x ys

/-- Stable sort by `r`, the model of Python `list.sort(key=..., reverse=...)`
once `r` is instantiated with the corresponding total preorder. -/
def stableSort {α : Type} (r : α → α → Bool) : List α → List α
  | [] => []
  | x :: xs => insertStable r x (stableSort r xs)

theorem insertStable_perm {α : Type} (r : α → α → Bool) (x : α) (l : List α) :
    (insertStable r x l).Perm (x :: l) := by
  induction l with
  | nil => simp [insertStable]
  | cons y ys ih =>
      simp only [insertStable]
      by_cases h : r x y
      · simp [h]
      · simp only [h, if_neg]
        exact ((ih.cons y).trans (List.Perm.swap x y ys)).symm.symm

theorem stableSort_perm {α : Type} (r : α → α → Bool) (l : List α) :
    (stableSort r l).Perm l := by
  induction l with
  | nil => simp [stableSort]
  | cons x xs ih =>
      exact (insertStable_perm r x (stableSort r xs)).trans (ih.cons x)

theorem mem_stableSort {α : Type} (r : α → α → Bool) (l : List α) (a : α) :
    a ∈ stableSort r l ↔ a ∈ l :=
  (stableSort_perm r l).mem_iff

theorem pairwise_insertStable {α : Type} (r : α → α → Bool)
    (htot : ∀ a b, r a b = true ∨ r b a = true)
    (htrans : ∀ a b c, r a b = true → r b c = true → r a c = true)
    (x : α) (l : List α) (hl : l.Pairwise (fun a b => r a b = true)) :
    (insertStable r x l).Pairwise (fun a b => r a b = true) := by
  induction l with
  | nil => simp [insertStable]
  | cons y ys ih =>
      rcases List.pairwise_cons.mp hl with ⟨hy, hys⟩
      by_cases h : r x y
      · simp only [insertStable, h, if_pos]
        refine List.pairwise_cons.mpr ⟨?_, hl⟩
        intro b hb
        rcases List.mem_cons.mp hb with rfl | hb2
        · exact h
        · exact htrans x y b h (hy b hb2)
      · simp only [insertStable, h, if_neg, Bool.false_eq_true, not_false_iff]
        refine List.pairwise_cons.mpr ⟨?_, ih hys⟩
        intro b hb
        rw [(insertStable_perm r x ys).mem_iff] at hb
        rcases List.mem_cons.mp hb with rfl | hb2
        · rcases htot b y with h1 | h1
          · exact absurd h1 h
          · exact h1
        · exact hy b hb2

theorem pairwise_stableSort {α : Type} (r : α → α → Bool)
    (htot : ∀ a b, r a b = true ∨ r b a = true)
    (htrans : ∀ a b c, r a b = true → r b c = true → r a c = true)
    (l : List α) :
    (stableSort r l).Pairwise (fun a b => r a b = true) := by
  induction l with
  | nil => simp [stableSort]
  | cons x xs ih => exact pairwise_insertStable r htot htrans x (stableSort r xs) ih

/-! ### Freshness cache, from generator/cache.py

File modification times are Python floats compared with `==`; they are
modelled as rationals. The in-memory cache `self.cache` is a dict from the
file path to an entry dict holding the stored mtime and the payload.
-/

/-- Entry stored under a key of `CacheManager.cache`: the dict
`\x7b"mtime": mtime, "data": data\x7d` built by `CacheManager.set`. -/
structure CacheEntry (α : Type) where
  mtime : ℚ
  data : α
deriving DecidableEq, Repr

namespace CacheManager

/-- Model of `CacheManager.get` (cache.py lines 25-42): return the stored
payload only when the stored mtime equals the queried mtime exactly. -/
def get {α : Type} (cache : List (String × CacheEntry α)) (file_path : String)
    (mtime : ℚ) : Option α :=
  match dictLookup cache file_path with
  | none => none
  | some entry => if entry.mtime = mtime then some entry.data else none

/-- Model of `CacheManager.set` (cache.py lines 44-50): overwrite the entry
for the key with the given mtime and payload. -/
def set {α : Type} (cache : List (String × CacheEntry α)) (file_path : String)
    (mtime : ℚ) (data : α) : List (String × CacheEntry α) :=
  dictInsert cache file_path ⟨mtime, data⟩

end CacheManager

/-! ### Persistence of the cache snapshot, from CacheManager.save

The observable effect of `CacheManager.save` (cache.py lines 52-61) on the
file system is modelled as a trace of operations: `mkdir -p` of the cache
directory when missing, then `open(self.cache_file, "w")` which truncates
the target file in place, then the streamed writes of `json.dump`. There
is no temporary file and no rename step in the source.
-/

/-- File-system operations that cache.py can perform while saving. -/
inductive FsOp where
  /-- Creation of the cache directory (`mkdir(parents=True, exist_ok=True)`). -/
  | mkdirp (path : String)
  /-- Opening a file in mode `w`, which truncates it to empty at once. -/
  | openTrunc (path : String)
  /-- A chunk written into an open file. -/
  | write (path : String) (chunk : String)
  /-- An atomic rename (never emitted by cache.py; listed so the
  write-then-replace discipline is expressible over traces). -/
  | rename (src dst : String)
deriving DecidableEq, Repr

/-- Trace of `CacheManager.save`: optionally create the cache directory,
then truncate the snapshot file and stream the serialized cache into it.
`chunks` stands for the successive pieces written by `json.dump`. -/
def CacheManager.saveTrace (cacheDirExists : Bool) (cacheDir cacheFile : String)
    (chunks : List String) : List FsOp :=
  (if cacheDirExists then [] else [FsOp.mkdirp cacheDir]) ++
    FsOp.openTrunc cacheFile :: chunks.map (FsOp.write cacheFile)

/-- File contents (by path) after executing a list of operations, starting
from the contents `fs`. -/
def runFsOps (fs : String → Option String) : List FsOp → (String → Option String)
  | [] => fs
  | op :: rest =>
      let fs' : String → Option String :=
        match op with
        | FsOp.mkdirp _ => fs
        | FsOp.openTrunc p => fun q => if q = p then some "" else fs q
        | FsOp.write p chunk => fun q =>
            if q = p then some ((fs p).getD "" ++ chunk) else fs q
        | FsOp.rename src dst => fun q =>
            if q = dst then fs src else if q = src then none else fs q
      runFsOps fs' rest

/-- A trace follows the write-then-replace discipline for `target` when no
operation before the final rename touches `target` itself, and the last
operation is a rename onto `target`. -/
def writeThenReplace (trace : List FsOp) (target : String) : Prop :=
  ∃ tmp body, trace = body ++ [FsOp.rename tmp target] ∧ tmp ≠ target ∧
    ∀ op ∈ body, op ≠ FsOp.openTrunc target ∧ op ≠ FsOp.rename tmp target ∧
      ∀ chunk, op ≠ FsOp.write target chunk

/-! ### Shortcode tokenizer and expander, from generator/shortcode_manager.py

The expander substitutes every match of the pattern

  `\x7b\x7b<\s*(\w+)\s*(.*?)\s*>\x7d\x7d(?:(.*?)\x7b\x7b<\s*/\1\s*>\x7d\x7d)?`

(DOTALL) in a single left-to-right pass. The lazy groups make the pattern
deterministic: the arguments group ends at the first occurrence of the
closing delimiter, and the optional block group captures up to the first
matching closer of the same name. Both facts are reflected below by
first-occurrence scans. Text is processed as a list of characters; ASCII
word and space classes suffice for the inputs the grammar admits.
-/

/-- Whitespace class of Python regular expressions, ASCII part. -/
def pyIsSpace (c : Char) : Bool :=
  c = ' ' || c = '\t' || c = '\n' || c = '\r' || c = '\x0b' || c = '\x0c'

/-- Word-character class of Python regular expressions, ASCII part. -/
def pyIsWord (c : Char) : Bool :=
  c.isAlpha || c.isDigit || c = '_'

/-- Characters that shlex treats as token separators. -/
def shlexWs (c : Char) : Bool :=
  c = ' ' || c = '\t' || c = '\r' || c = '\n'

/-- Scanner mode of the shlex model: outside quotes, inside single or
double quotes, or just after an escaping backslash. -/
inductive ShMode where
  | plain
  | inSingle
  | inDouble
  | escPlain
  | escDouble
deriving DecidableEq, Repr

/-- Append the finished token, if one was started, to the accumulator. -/
def shFlush (cur : Option (List Char)) (acc : List String) : List String :=
  match cur with
  | none => acc
  | some t => acc ++ [String.mk t]

/-- Model of `shlex.split` in POSIX mode: quotes group characters, a
backslash escapes outside quotes and escapes only backslash and the double
quote inside double quotes; `none` models the ValueError raised on an
unterminated quote or a trailing escape. -/
def shlexGo : List Char → ShMode → Option (List Char) → List String →
    Option (List String)
  | [], ShMode.plain, cur, acc => some (shFlush cur acc)
  | [], _, _, _ => none
  | c :: cs, ShMode.plain, cur, acc =>
      if shlexWs c then shlexGo cs ShMode.plain none (shFlush cur acc)
      else if c = '\'' then shlexGo cs ShMode.inSingle (some (cur.getD [])) acc
      else if c = '"' then shlexGo cs ShMode.inDouble (some (cur.getD [])) acc
      else if c = '\\' then shlexGo cs ShMode.escPlain (some (cur.getD [])) acc
      else shlexGo cs ShMode.plain (some (cur.getD [] ++ [c])) acc
  | c :: cs, ShMode.inSingle, cur, acc =>
      if c = '\'' then shlexGo cs ShMode.plain cur acc
      else shlexGo cs ShMode.inSingle (some (cur.getD [] ++ [c])) acc
  | c :: cs, ShMode.inDouble, cur, acc =>
      if c = '"' then shlexGo cs ShMode.plain cur acc
      else if c = '\\' then shlexGo cs ShMode.escDouble cur acc
      else shlexGo cs ShMode.inDouble (some (cur.getD [] ++ [c])) acc
  | c :: cs, ShMode.escPlain, cur, acc =>
      shlexGo cs ShMode.plain (some (cur.getD [] ++ [c])) acc
  | c :: cs, ShMode.escDouble, cur, acc =>
      if c = '\\' || c = '"' then
        shlexGo cs ShMode.inDouble (some (cur.getD [] ++ [c])) acc
      else
        shlexGo cs ShMode.inDouble (some (cur.getD [] ++ ['\\', c])) acc

/-- Split a string into shell-style tokens; `none` is a tokenizing error. -/
def shlexSplit (s : String) : Option (List String) :=
  shlexGo s.data ShMode.plain none []

/-- Split a token at its first `=`, the model of `token.split("=", 1)`. -/
def splitFirstEq (tok : String) : Option (String × String) :=
  match tok.data.findIdx? (fun c => c = '=') with
  | none => none
  | some i => some (String.mk (tok.data.take i), String.mk (tok.data.drop (i + 1)))

/-- Model of `ShortcodeManager._parse_args` (shortcode_manager.py lines
72-100): shlex-tokenize, then route tokens containing `=` to the keyword
mapping (split at the first `=`) and the rest, in order, to the positional
list. A tokenizing failure is reported and yields empty argument lists.
The third component carries the diagnostics printed by the source. -/
def parse_args (args_str : String) :
    List String × List (String × String) × List String :=
  match shlexSplit args_str with
  | none => ([], [], ["Error parsing shortcode args"])
  | some tokens =>
      let step := fun (st : List String × List (String × String)) (tok : String) =>
        match splitFirstEq tok with
        | some (k, v) => (st.1, dictInsert st.2 k v)
        | none => (st.1 ++ [tok], st.2)
      let res := tokens.foldl step ([], [])
      (res.1, res.2, [])

/-! ### Calling a handler: Python argument binding

`_replace_match` invokes `self.shortcodes[name](*args, **kwargs)`. The
handlers are plain functions with positional parameters and defaults, so
the call either binds every parameter or raises a TypeError, which the
expander catches. `bindArgs` reproduces that binding discipline for a
parameter list given in declaration order. -/

/-- Bind positional and keyword arguments to the parameters of a Python
function with the given defaults; `Except.error` models the TypeError
message. The result maps every parameter name to its bound value. -/
def bindArgs (params : List String) (defaults : List (String × String))
    (args : List String) (kwargs : List (String × String)) :
    Except String (List (String × String)) := do
  if params.length < args.length then
    throw "too many positional arguments"
  let posBound := params.zip args
  let bound ← kwargs.foldlM
    (fun (acc : List (String × String)) (kv : String × String) =>
      if params.contains kv.1 = false then
        throw ("got an unexpected keyword argument " ++ kv.1)
      else if (acc.map Prod.fst).contains kv.1 then
        throw ("got multiple values for argument " ++ kv.1)
      else pure (acc ++ [kv]))
    posBound
  params.foldlM
    (fun (env : List (String × String)) (p : String) =>
      match dictLookup bound p with
      | some v => pure (env ++ [(p, v)])
      | none =>
          match dictLookup defaults p with
          | some v => pure (env ++ [(p, v)])
          | none => throw ("missing required argument " ++ p))
    []

/-! ### Python float conversion and formatting

The rating handler calls `float(...)` on its textual arguments and
interpolates the parsed values back into the output. Ratings in content
are short decimal literals, which are exactly representable, so floats
are modelled as rationals: `pyFloat` parses the plain decimal forms
(optional sign, digits, optional fraction) and `pyFloatStr` prints the
value the way `str()` prints such a float, with at least one fractional
digit. -/

/-- Numeric value of a list of decimal digit characters. -/
def digitsVal (ds : List Char) : ℕ :=
  ds.foldl (fun n c => n * 10 + (c.toNat - 48)) 0

/-- Parse the plain decimal forms accepted by `float(...)`: optional
surrounding whitespace and sign, digits with an optional fractional part.
Exponent, infinity and nan forms do not occur in content and are not
modelled; `none` models the ValueError. -/
def pyFloat (s : String) : Option ℚ :=
  let cs := (s.data.dropWhile pyIsSpace).reverse.dropWhile pyIsSpace |>.reverse
  let (sign, cs) : ℚ × List Char :=
    match cs with
    | '-' :: rest => (-1, rest)
    | '+' :: rest => (1, rest)
    | _ => (1, cs)
  let intPart := cs.takeWhile Char.isDigit
  let rest := cs.dropWhile Char.isDigit
  match rest with
  | [] => if intPart.isEmpty then none else some (sign * digitsVal intPart)
  | '.' :: rest2 =>
      let fracPart := rest2.takeWhile Char.isDigit
      if (rest2.dropWhile Char.isDigit).isEmpty = false then none
      else if intPart.isEmpty && fracPart.isEmpty then none
      else some (sign * ((digitsVal intPart : ℚ) +
        (digitsVal fracPart : ℚ) / ((10 : ℚ) ^ fracPart.length)))
  | _ => none

/-- Decimal digits of the fractional part of a nonnegative rational,
produced with bounded fuel; values reached by the claims terminate well
inside the bound. -/
def fracDigits : ℚ → ℕ → List Char
  | _, 0 => []
  | q, fuel + 1 =>
      if q = 0 then []
      else
        let d := ⌊q * 10⌋
        Char.ofNat (48 + d.toNat) :: fracDigits (q * 10 - d) fuel

/-- Format a rational the way `str()` prints the corresponding float for
short exact decimals: sign, integer part, then at least one fractional
digit (`9` prints as `9.0`, `4.5` as `4.5`). -/
def pyFloatStr (q : ℚ) : String :=
  let sign := if q < 0 then "-" else ""
  let a := |q|
  let ip := ⌊a⌋
  let fd := fracDigits (a - ip) 17
  sign ++ toString ip ++ "." ++ (if fd.isEmpty then "0" else String.mk fd)

/-! ### The handlers exercised by the claims

`ShortcodeManager._discover_shortcodes` imports every module under
generator/shortcodes/ and registers its `render` function. The handlers
needed by the claims, `spoiler` and `rating`, are embedded below; their
output strings reproduce the f-strings of the source byte for byte. A
handler takes the positional and keyword arguments produced by
`parse_args` and either returns HTML or fails like the Python call. -/

/-- Type of a registered shortcode handler. -/
def Handler : Type := List String → List (String × String) → Except String String

/-- Output f-string of spoiler.render (generator/shortcodes/spoiler.py). -/
def spoilerHtml (title content : String) : String :=
  "\n<details markdown=\"1\" style=\"border: 1px solid #ddd; padding: 1rem; border-radius: 8px; margin: 1rem 0;\">\n<summary style=\"cursor: pointer; font-weight: bold; margin-bottom: 1rem;\">"
    ++ title ++ "</summary>\n" ++ content ++ "\n</details>\n"

/-- Model of `render(title="Spoiler", content="")` from spoiler.py. -/
def spoiler_render : Handler := fun args kwargs => do
  let env ← bindArgs ["title", "content"]
    [("title", "Spoiler"), ("content", "")] args kwargs
  pure (spoilerHtml ((dictLookup env "title").getD "")
    ((dictLookup env "content").getD ""))

/-- Truncation toward zero, the model of the `int(...)` conversion. -/
def pyInt (q : ℚ) : ℤ :=
  if q < 0 then -⌊-q⌋ else ⌊q⌋

/-- Star glyph string `"★" * full + ("⯨" if half else "") + "☆" * empty`
shared by rating.py and Review.star_string; a negative repetition count
yields the empty string as in Python. -/
def starGlyphs (full : ℤ) (half : Bool) (empty : ℤ) : String :=
  String.mk (List.replicate full.toNat '★') ++ (if half then "⯨" else "") ++
    String.mk (List.replicate empty.toNat '☆')

/-- Model of `render(score, max_score="10")` from rating.py: parse both
numbers, normalize to the five-star scale, truncate for the full stars,
add a half star when the remainder is at least one half, pad with empty
stars, and interpolate the parsed values into the span; a ValueError from
parsing is caught inside the handler and yields an HTML comment. -/
def rating_render : Handler := fun args kwargs => do
  let env ← bindArgs ["score", "max_score"] [("max_score", "10")] args kwargs
  let score := (dictLookup env "score").getD ""
  let max_score := (dictLookup env "max_score").getD ""
  match pyFloat score, pyFloat max_score with
  | some val, some maximum =>
      if maximum = 0 then throw "float division by zero"
      else
        let normalized := val / maximum * 5
        let full := pyInt normalized
        let half := decide ((1 : ℚ) / 2 ≤ normalized - full)
        let empty := 5 - full - (if half then 1 else 0)
        pure ("<span class=\"review-stars\" title=\"" ++ pyFloatStr val ++ "/"
          ++ pyFloatStr maximum ++ "\">" ++ starGlyphs full half empty ++ "</span>")
  | _, _ =>
      pure ("<!-- Invalid rating: " ++ score ++ "/" ++ max_score ++ " -->")

/-- Registry entries needed by the claims; discovery loads the modules of
generator/shortcodes/ in directory order and registers each `render`. -/
def shortcodesRegistry : List (String × Handler) :=
  [("rating", rating_render), ("spoiler", spoiler_render)]

/-! ### Matching one tag at a position -/

/-- Match a literal character sequence, returning the remainder. -/
def matchLit : List Char → List Char → Option (List Char)
  | [], cs => some cs
  | _ :: _, [] => none
  | d :: ds, c :: cs => if c = d then matchLit ds cs else none

/-- The closing delimiter `>\x7d\x7d` of an opening tag. -/
def closeDelim : List Char := ['>', '\x7d', '\x7d']

/-- The opening delimiter `\x7b\x7b<` of a tag. -/
def openDelim : List Char := ['\x7b', '\x7b', '<']

/-- First position, scanning left to right, where the matcher `m`
succeeds; returns the text before that position together with the
remainder after the match. This is how a lazy group followed by a
concrete delimiter matches: it ends at the first occurrence. -/
def scanFirst (m : List Char → Option (List Char)) :
    List Char → Option (List Char × List Char)
  | [] => match m [] with
          | some r => some ([], r)
          | none => none
  | c :: cs =>
      match m (c :: cs) with
      | some r => some ([], r)
      | none =>
          match scanFirst m cs with
          | some (pre, rest) => some (c :: pre, rest)
          | none => none

/-- Match the block closer `\x7b\x7b<\s*/name\s*>\x7d\x7d` at the start of
the input: the backreference requires exactly the same name. -/
def matchCloser (name : List Char) (cs : List Char) : Option (List Char) := do
  let r1 ← matchLit openDelim cs
  let r2 := r1.dropWhile pyIsSpace
  let r3 ← matchLit ['/'] r2
  let r4 ← matchLit name r3
  let r5 := r4.dropWhile pyIsSpace
  matchLit closeDelim r5

/-- Remove trailing regex whitespace, the effect of the `\s*` that sits
between the lazy arguments group and the closing delimiter. -/
def rstripSpace (cs : List Char) : List Char :=
  (cs.reverse.dropWhile pyIsSpace).reverse

/-- One successful match of the tag pattern at the start of the scanned
text: the captured name, arguments text and optional inner block, plus
the full matched text (group 0) and the remainder after the match. -/
structure TagMatch where
  name : List Char
  argsText : List Char
  inner : Option (List Char)
  group0 : List Char
  rest : List Char
deriving Repr

/-- Match the tag pattern at the start of `cs0`: the opening delimiter,
greedy whitespace, a nonempty word name, greedy whitespace, the lazy
arguments text ending at the first closing delimiter, then optionally the
lazy inner block ending at the first matching closer (absent when no
closer of the same name occurs anywhere in the remainder). -/
def matchOpen (cs0 : List Char) : Option TagMatch := do
  let r1 ← matchLit openDelim cs0
  let r2 := r1.dropWhile pyIsSpace
  let name := r2.takeWhile pyIsWord
  if name.isEmpty then none
  else
    let r3 := (r2.dropWhile pyIsWord).dropWhile pyIsSpace
    let (argsRaw, r5) ← scanFirst (matchLit closeDelim) r3
    let args := rstripSpace argsRaw
    match scanFirst (matchCloser name) r5 with
    | some (inner, r6) =>
        some ⟨name, args, some inner, cs0.take (cs0.length - r6.length), r6⟩
    | none =>
        some ⟨name, args, none, cs0.take (cs0.length - r5.length), r5⟩

/-! ### The substitution pass -/

/-- Invocation of a registered handler from `_replace_match`: the call
`str(self.shortcodes[name](*args, **kwargs))` inside the try block; a
raised exception is caught, reported, and replaced by an HTML comment
carrying the tag name and the error. -/
def invoke_handler (nameS : String) (handler : Handler) (args : List String)
    (kwargs : List (String × String)) : String × List String :=
  match handler args kwargs with
  | Except.ok out => (out, [])
  | Except.error e =>
      ("<!-- Error rendering " ++ nameS ++ ": " ++ e ++ " -->",
        ["Error rendering " ++ nameS ++ ": " ++ e])

/-- Model of `ShortcodeManager._replace_match` (shortcode_manager.py lines
49-70), parameterized by the expansion function applied recursively to a
captured inner block. An unknown name reports a diagnostic and returns
group 0 unchanged; otherwise the arguments are parsed, a captured inner
block is expanded and bound as the keyword argument `content`, and the
handler is invoked. The second component collects diagnostics. -/
def replace_match (reg : List (String × Handler))
    (expandInner : List Char → String × List String) (m : TagMatch) :
    String × List String :=
  let nameS := String.mk m.name
  match dictLookup reg nameS with
  | none =>
      (String.mk m.group0, ["Warning: Shortcode \x27" ++ nameS ++ "\x27 not found."])
  | some handler =>
      let (args, kwargs, pdiags) := parse_args (String.mk m.argsText)
      match m.inner with
      | none =>
          let res := invoke_handler nameS handler args kwargs
          (res.1, pdiags ++ res.2)
      | some inner =>
          let (txt, ds) := expandInner inner
          let res := invoke_handler nameS handler args (dictInsert kwargs "content" txt)
          (res.1, pdiags ++ ds ++ res.2)

/-- Single left-to-right substitution pass of `pattern.sub`: at each
position try the pattern; on failure advance one character, on success
emit the replacement and continue scanning after the match. Inner blocks
are expanded recursively with the remaining fuel; the fuel, initially the
length of the text, never runs out because every recursive call strictly
shrinks the text. -/
def expandGo (reg : List (String × Handler)) : ℕ → List Char → String × List String
  | 0, _ => ("", [])
  | _ + 1, [] => ("", [])
  | fuel + 1, c :: cs =>
      match matchOpen (c :: cs) with
      | none =>
          let (s, d) := expandGo reg fuel cs
          (String.singleton c ++ s, d)
      | some m =>
          let (rep, d1) := replace_match reg (expandGo reg fuel) m
          let (s, d2) := expandGo reg fuel m.rest
          (rep ++ s, d1 ++ d2)

/-- Model of `ShortcodeManager.process`: replace every shortcode in the
content, returning the rewritten text and the printed diagnostics. -/
def process (reg : List (String × Handler)) (content : String) :
    String × List String :=
  expandGo reg content.data.length content.data

/-! ### Content model, from generator/models.py

Dates are modelled as integers ordered like datetimes. `ContentItem` is a
dataclass, so Python `==` compares all fields; equality of the structure
below models that. Ratings are optional floats, modelled as rationals. -/

/-- The fields of the `ContentItem` dataclass that the claims depend on;
dataclass equality is structure equality. -/
structure ContentItem where
  title : String
  date : ℤ
  slug : String
  url : String
  content : String
  type : String
  path : String
  tags : List String
  category : Option String
  shortname : Option String
  hide_from_home : Bool
deriving DecidableEq, Repr

namespace Review

/-- Model of the property `Review.star_string` (models.py lines 129-138):
halve the ten-scale rating, truncate for the full stars, add a half star
when the remainder reaches one half, pad with empty stars; a missing
rating renders as the empty string. -/
def star_string (rating : Option ℚ) : String :=
  match rating with
  | none => ""
  | some rating =>
      let score := rating / 2
      let full := pyInt score
      let half := decide ((1 : ℚ) / 2 ≤ score - full)
      let empty := 5 - full - (if half then 1 else 0)
      starGlyphs full half empty

end Review

/-! ### URL construction, from generator/content_loader.py

`ContentLoader._parse_post` (lines 151-156) derives the canonical url of
an item from its section and slug, localizing the section through the
`url_slugs` mapping, except for the `pages` section whose items live at
the site root. -/

namespace ContentLoader

/-- Model of the url construction in `_parse_post`. -/
def buildUrl (url_slugs : List (String × String)) (sectionName slug : String) :
    String :=
  if sectionName = "pages" then "/" ++ slug ++ "/"
  else
    let url_section := (dictLookup url_slugs sectionName).getD sectionName
    "/" ++ url_section ++ "/" ++ slug ++ "/"

end ContentLoader

/-- Modelled from the spec, for comparison with `ContentLoader.buildUrl`:
the url has the shape `/\x7blocalized-section\x7d/\x7bslug\x7d/` with the
localized section defaulting to the section name, except that items of
the `pages` section get `/\x7bslug\x7d/` with no section segment. -/
def specUrl (url_slugs : List (String × String)) (sectionName slug : String) :
    String :=
  if sectionName = "pages" then "/" ++ slug ++ "/"
  else "/" ++ ((dictLookup url_slugs sectionName).getD sectionName) ++ "/" ++ slug ++ "/"

/-! ### Relative path computation, from SiteBuilder.get_relative_path

site_builder.py lines 634-659 rewrite a site-root-relative target URL
relative to the current page URL using `os.path.dirname` and
`os.path.relpath`. Both are modelled at the level of path segments;
`normSegs` is the segment normalization that `abspath` performs inside
`relpath` (the unknown working directory is a shared leading segment list
that cancels in the common-leading-part computation, so it is taken to be
the root). -/

/-- Segment normalization of posixpath: empty and `.` segments vanish,
`..` removes the previous segment and is clamped at the root. -/
def normSegs (segs : List String) : List String :=
  segs.foldl
    (fun acc seg =>
      if seg = "" ∨ seg = "." then acc
      else if seg = ".." then acc.dropLast
      else acc ++ [seg])
    []

/-- Length of the common leading part of two segment lists. -/
def commonLen : List String → List String → ℕ
  | x :: xs, y :: ys => if x = y then commonLen xs ys + 1 else 0
  | _, _ => 0

/-- Model of `posixpath.relpath(path, start)`: normalize both into
segment lists, drop the common leading part, climb with `..` for what
remains of `start` and descend into what remains of `path`. -/
def relpath (path start : String) : String :=
  let path_list := normSegs (path.splitOn "/")
  let start_list := normSegs (start.splitOn "/")
  let i := commonLen start_list path_list
  let rel_list := List.replicate (start_list.length - i) ".." ++ path_list.drop i
  if rel_list.isEmpty then "." else String.intercalate "/" rel_list

/-- Model of `posixpath.dirname`: the part before the last slash, with
trailing slashes stripped unless the result is all slashes. -/
def pyDirname (p : String) : String :=
  let cs := p.data
  let i := cs.length - (cs.reverse.takeWhile (fun c => c ≠ '/')).length
  let head := cs.take i
  if head.isEmpty ∨ head.all (fun c => c = '/') then String.mk head
  else String.mk (head.reverse.dropWhile (fun c => c = '/')).reverse

/-- Remove every leading slash, the model of `lstrip("/")`. -/
def lstripSlash (s : String) : String :=
  String.mk (s.data.dropWhile (fun c => c = '/'))

namespace SiteBuilder

/-- Model of `SiteBuilder._get_relative_path` (site_builder.py lines
634-659): force both URLs to start with a slash, treat the current URL as
a directory when it ends in a slash and otherwise take its dirname, strip
the leading slashes, replace empty results by `.`, and delegate to
relpath. -/
def get_relative_path (from_url to_url : String) : String :=
  let f := if from_url.startsWith "/" then from_url else "/" ++ from_url
  let t := if to_url.startsWith "/" then to_url else "/" ++ to_url
  let from_dir := if f.endsWith "/" then f else pyDirname f
  let from_dir := lstripSlash from_dir
  let from_dir := if from_dir = "" then "." else from_dir
  let t := lstripSlash t
  let t := if t = "" then "." else t
  relpath t from_dir

end SiteBuilder

/-! ### Shortname index, from SiteBuilder.build

`ContentLoader.load_content` sorts the loaded posts by date, newest
first (content_loader.py lines 73-79); `SiteBuilder.build` sorts again
with the same key (site_builder.py line 159) and only then builds
`self.shortname_map = \x7bp.shortname: p for p in posts if p.shortname\x7d`
(line 167). In a dict comprehension a repeated key keeps the value of the
last iteration, so among duplicates the item latest in the date-sorted
order wins, not the item loaded last. -/

namespace SiteBuilder

/-- The sort `posts.sort(key=lambda x: x.date, reverse=True)`: stable,
newest first. -/
def sortByDateDesc (posts : List ContentItem) : List ContentItem :=
  stableSort (fun a b => decide (b.date ≤ a.date)) posts

/-- One step of the dict comprehension: an item carrying a shortname
overwrites the binding of that shortname. -/
def shortnameStep (m : List (String × ContentItem)) (p : ContentItem) :
    List (String × ContentItem) :=
  match p.shortname with
  | some sn => dictInsert m sn p
  | none => m

/-- Model of the dict comprehension building `self.shortname_map` from
the date-sorted post list. -/
def shortname_map (loaded : List ContentItem) : List (String × ContentItem) :=
  (sortByDateDesc loaded).foldl shortnameStep []

end SiteBuilder

/-! ### Reference resolution, from SiteBuilder.resolve_internal_links

site_builder.py lines 713-743 scan the rendered page for
`internal-link` placeholders. The per-placeholder outcome is modelled:
a found shortname becomes an anchor whose href is the relative rewrite of
the target url and whose text is the explicit display text when present,
else the target title; an unknown shortname becomes the marked broken
fragment together with a diagnostic. -/

/-- Outcome of resolving one placeholder. -/
inductive ResolvedRef where
  /-- A normal anchor `<a href=...>text</a>`. -/
  | anchor (href text : String)
  /-- The visibly marked broken-reference span. -/
  | broken (shortname : String)
deriving DecidableEq, Repr

namespace SiteBuilder

/-- Model of the body of the placeholder loop of
`_resolve_internal_links`: lookup, relative rewrite against the current
url when one is given, display text defaulting to the target title. -/
def resolve_internal_link (shortnameMap : List (String × ContentItem))
    (current_url : Option String) (shortname : String)
    (text : Option String) : ResolvedRef :=
  match dictLookup shortnameMap shortname with
  | some target_post =>
      let href := target_post.url
      let href :=
        match current_url with
        | some cur => get_relative_path cur href
        | none => href
      ResolvedRef.anchor href (text.getD target_post.title)
  | none => ResolvedRef.broken shortname

end SiteBuilder

/-! ### Pagination window, from SiteBuilder.render_index

site_builder.py lines 375-393: with at most seven pages the window is
every page; otherwise it is `sorted(set(\x7b1, total\x7d ∪ clipped
five-page band))` with a gap marker (`None`) inserted between entries
that are not adjacent. Python integers are modelled as `ℤ`; the Python
`sorted(set(...))` is modelled as an ascending stable sort of the
deduplicated candidate list. -/

/-- The list `range(lo, hi + 1)` of Python, ascending. -/
def intRange (lo hi : ℤ) : List ℤ :=
  (List.range (hi + 1 - lo).toNat).map (fun k : ℕ => lo + (k : ℤ))

/-- Gap insertion loop of `_render_index`: starting from `last_p = 0`,
emit a `none` marker before any entry that is not adjacent to its kept
neighbor. -/
def insertGaps : ℤ → List ℤ → List (Option ℤ)
  | _, [] => []
  | last_p, p :: rest =>
      (if 0 < last_p ∧ 1 < p - last_p then [none, some p] else [some p]) ++
        insertGaps p rest

namespace SiteBuilder

/-- Model of the pagination window of `_render_index` for `total_pages`
pages with the cursor on `page_num`. -/
def page_window (total_pages page_num : ℤ) : List (Option ℤ) :=
  if total_pages ≤ 7 then (intRange 1 total_pages).map some
  else
    let cand := [1, total_pages] ++
      (intRange (page_num - 2) (page_num + 2)).filter
        (fun i => decide (1 ≤ i ∧ i ≤ total_pages))
    let sorted_pages := stableSort (fun a b => decide (a ≤ b)) cand.dedup
    insertGaps 0 sorted_pages

end SiteBuilder

/-- Modelled from the spec, for comparison with `SiteBuilder.page_window`:
with at most seven pages the window is every page; otherwise it keeps,
in ascending order, exactly the in-range pages that are the first page,
the last page, or within two of the current page, with a gap marker
between non-adjacent entries. -/
def specPageWindow (total_pages page_num : ℤ) : List (Option ℤ) :=
  if total_pages ≤ 7 then (intRange 1 total_pages).map some
  else
    insertGaps 0 ((intRange 1 total_pages).filter
      (fun i => decide (i = 1 ∨ i = total_pages ∨
        (page_num - 2 ≤ i ∧ i ≤ page_num + 2))))

/-! ### Related items, from SiteBuilder.get_related_posts

site_builder.py lines 611-632: candidates are the other posts sharing at
least one tag, scored by the size of the tag-set intersection, sorted by
`(overlap, date)` descending (stable), and truncated to `limit`, which
defaults to 3. -/

/-- Size of the tag-set intersection
`len(set(current.tags) & set(post.tags))`. -/
def tagOverlap (a b : ContentItem) : ℕ :=
  (a.tags.toFinset ∩ b.tags.toFinset).card

/-- Descending lexicographic comparison of `(overlap, date)` keys: the
sort relation corresponding to
`candidates.sort(key=lambda x: (x[0], x[1].date), reverse=True)`. -/
def relKey (a b : ℕ × ContentItem) : Bool :=
  decide (b.1 < a.1 ∨ (b.1 = a.1 ∧ b.2.date ≤ a.2.date))

namespace SiteBuilder

/-- Model of `_get_related_posts`: an empty tag list short-circuits to no
related items; otherwise score, sort and truncate. -/
def get_related_posts (all_posts : List ContentItem)
    (current_post : ContentItem) (limit : ℕ) : List ContentItem :=
  if current_post.tags.isEmpty then []
  else
    let candidates :=
      (all_posts.filter
        (fun post => post ≠ current_post ∧ 0 < tagOverlap current_post post)).map
        (fun post => (tagOverlap current_post post, post))
    ((stableSort relKey candidates).take limit).map Prod.snd

/-- Default of the `limit` parameter of `_get_related_posts`. -/
def related_posts_default_limit : ℕ := 3

end SiteBuilder

/-! ## Theorems for the claims -/

set_option maxRecDepth 10000

/-- Concatenation of the streamed chunks of one `json.dump` call. -/
def concatChunks (chunks : List String) : String :=
  chunks.foldr (fun a b => a ++ b) ""

/-- Helper: streamed writes into an open file append the chunks in order. -/
theorem runFsOps_writes (fs : String → Option String) (f s : String)
    (hf : fs f = some s) (chunks : List String) :
    runFsOps fs (chunks.map (FsOp.write f)) f = some (s ++ concatChunks chunks) := by
  induction chunks generalizing fs s with
  | nil => simpa [runFsOps, concatChunks] using hf
  | cons c rest ih =>
      simp only [List.map_cons, runFsOps]
      have h2 : (fun q => if q = f then some ((fs f).getD "" ++ c) else fs q) f =
          some (s ++ c) := by simp [hf]
      rw [ih _ _ h2]
      simp [concatChunks, String.append_assoc]

/-- C2: after `put(k, t, d)`, `get(k, t)` returns exactly `d`; `get(k, t2)`
for any `t2 ≠ t`, earlier or later, returns absent; and any hit of `get`
comes from an entry whose stored mtime equals the queried mtime
bit for bit. -/
theorem c2_cache_mtime_exact {α : Type} (cache : List (String × CacheEntry α))
    (k : String) (t t2 : ℚ) (d : α) :
    CacheManager.get (CacheManager.set cache k t d) k t = some d ∧
    (t2 ≠ t → CacheManager.get (CacheManager.set cache k t d) k t2 = none) ∧
    (∀ d2, CacheManager.get cache k t = some d2 →
      ∃ e, dictLookup cache k = some e ∧ e.mtime = t ∧ e.data = d2) := by
  refine ⟨?_, ?_, ?_⟩
  · simp [CacheManager.get, CacheManager.set, dictLookup_dictInsert]
  · intro hne
    simp only [CacheManager.get, CacheManager.set, dictLookup_dictInsert, if_pos]
    have : ¬ ((⟨t, d⟩ : CacheEntry α).mtime = t2) := fun h => hne (h.symm)
    simp [this]
  · intro d2 h
    cases he : dictLookup cache k with
    | none => simp [CacheManager.get, he] at h
    | some e =>
        simp only [CacheManager.get, he] at h
        by_cases hm : e.mtime = t
        · rw [if_pos hm] at h
          exact ⟨e, rfl, hm, Option.some_inj.mp h⟩
        · rw [if_neg hm] at h
          exact absurd h (by simp)

/-- Witness for c2_cache_mtime_exact at a concrete cache state. -/
theorem c2_cache_mtime_exact_witness :
    CacheManager.get (CacheManager.set ([] : List (String × CacheEntry ℕ)) "k" 1 7) "k" 1
      = some 7 ∧
    CacheManager.get (CacheManager.set ([] : List (String × CacheEntry ℕ)) "k" 1 7) "k" 2
      = none :=
  ⟨(c2_cache_mtime_exact [] "k" 1 2 7).1,
    (c2_cache_mtime_exact [] "k" 1 2 7).2.1 (by norm_num)⟩

/-- C3 counterexample: with a previous snapshot `OLD` on disk, executing
only the first operation of the save trace (the truncating open) leaves
the snapshot file empty instead of intact, and the save trace does not
follow the write-then-replace discipline since it never renames onto the
target. -/
theorem c3_counterexample :
    runFsOps (fun p => if p = "c/f" then some "OLD" else none)
        ((CacheManager.saveTrace true "c" "c/f" ["NEW"]).take 1) "c/f" = some "" ∧
    runFsOps (fun p => if p = "c/f" then some "OLD" else none)
        ((CacheManager.saveTrace true "c" "c/f" ["NEW"]).take 1) "c/f" ≠ some "OLD" ∧
    ¬ writeThenReplace (CacheManager.saveTrace true "c" "c/f" ["NEW"]) "c/f" := by
  refine ⟨by with_unfolding_all decide, by with_unfolding_all decide, ?_⟩
  rintro ⟨tmp, body, heq, -, -⟩
  have h1 : (CacheManager.saveTrace true "c" "c/f" ["NEW"]).getLast? =
      some (FsOp.rename tmp "c/f") := by
    rw [heq]
    simp
  have h2 : (CacheManager.saveTrace true "c" "c/f" ["NEW"]).getLast? =
      some (FsOp.write "c/f" "NEW") := by
    with_unfolding_all decide
  rw [h2] at h1
  exact absurd (Option.some_inj.mp h1) (by simp)

/-- C3 amended: `CacheManager.save` is the only write to persistent
storage, but it rewrites the snapshot file in place rather than following
a write-then-replace discipline: the completed trace leaves exactly the
serialized cache, the trace contains no rename, and immediately after the
truncating open the snapshot file is empty, so a crash mid-flush loses
the previously persisted snapshot instead of leaving it intact. -/
theorem c3_save_in_place (fs : String → Option String) (dirExists : Bool)
    (dir file : String) (chunks : List String) :
    runFsOps fs (CacheManager.saveTrace dirExists dir file chunks) file =
      some (concatChunks chunks) ∧
    (∀ op ∈ CacheManager.saveTrace dirExists dir file chunks,
      ∀ src dst, op ≠ FsOp.rename src dst) ∧
    runFsOps fs ((CacheManager.saveTrace dirExists dir file chunks).take
      (if dirExists then 1 else 2)) file = some "" := by
  have hwrites : ∀ (g : String → Option String), g file = some "" →
      runFsOps g (chunks.map (FsOp.write file)) file = some (concatChunks chunks) := by
    intro g hg
    have := runFsOps_writes g file "" hg chunks
    simpa using this
  refine ⟨?_, ?_, ?_⟩
  · cases dirExists <;>
      simp only [CacheManager.saveTrace, Bool.false_eq_true, if_neg, if_pos,
        List.nil_append, List.cons_append, List.singleton_append, runFsOps] <;>
      exact hwrites _ (by simp)
  · intro op hop src dst
    have h : dirExists = false ∧ op = FsOp.mkdirp dir ∨ op = FsOp.openTrunc file ∨
        ∃ a ∈ chunks, FsOp.write file a = op := by
      simpa [CacheManager.saveTrace] using hop
    rcases h with ⟨-, rfl⟩ | rfl | ⟨c, -, rfl⟩ <;> simp
  · cases dirExists <;>
      simp [CacheManager.saveTrace, runFsOps]

/-- Helper: looking up `sn` after folding `shortnameStep` over a list
returns the last matching item of the list, falling back to the starting
accumulator. -/
theorem dictLookup_foldl_shortnameStep (l : List ContentItem)
    (m : List (String × ContentItem)) (sn : String) :
    dictLookup (l.foldl SiteBuilder.shortnameStep m) sn =
      ((l.filter (fun p => p.shortname = some sn)).getLast?).or
        (dictLookup m sn) := by
  induction l generalizing m with
  | nil => simp
  | cons p l ih =>
      rw [List.foldl_cons, ih]
      rcases hp : p.shortname with _ | s
      · have hf : (decide (p.shortname = some sn)) = false := by simp [hp]
        simp [SiteBuilder.shortnameStep, hp, List.filter_cons, hf]
      · by_cases hs : s = sn
        · subst hs
          have hf : (decide (p.shortname = some s)) = true := by simp [hp]
          have hstep : SiteBuilder.shortnameStep m p = dictInsert m s p := by
            simp [SiteBuilder.shortnameStep, hp]
          rw [hstep, dictLookup_dictInsert, if_pos rfl]
          simp only [List.filter_cons, hf, if_pos]
          cases hlast : (l.filter (fun q => q.shortname = some s)).getLast? with
          | none =>
              rw [List.getLast?_eq_none_iff] at hlast
              simp [hlast]
          | some q =>
              have hne : l.filter (fun q => q.shortname = some s) ≠ [] := by
                intro hnil
                rw [hnil] at hlast
                exact absurd hlast (by simp)
              rcases List.exists_cons_of_ne_nil hne with ⟨x, xs, hxe⟩
              rw [hxe] at hlast ⊢
              rw [List.getLast?_cons_cons, hlast]
              simp
        · have hf : (decide (p.shortname = some sn)) = false := by simp [hp, hs]
          have hstep : SiteBuilder.shortnameStep m p = dictInsert m s p := by
            simp [SiteBuilder.shortnameStep, hp]
          rw [hstep, dictLookup_dictInsert, if_neg (fun hh => hs hh.symm)]
          simp [List.filter_cons, hf]

/-- C4 amended: when shortnames collide, the global shortname index maps
the shortname to the item occupying the last position of the
date-descending stable sort of the loaded items (the earliest-dated
duplicate, ties keeping load order), not to the last-loaded item:
`SiteBuilder.build` sorts the posts by date before the dict comprehension
runs. -/
theorem c4_shortname_last_sorted (loaded : List ContentItem) (sn : String) :
    dictLookup (SiteBuilder.shortname_map loaded) sn =
      ((SiteBuilder.sortByDateDesc loaded).filter
        (fun p => p.shortname = some sn)).getLast? := by
  unfold SiteBuilder.shortname_map
  rw [dictLookup_foldl_shortnameStep]
  simp [dictLookup]

/-- Item loaded first in the C4 scenario: older date, shortname `s`. -/
def itemA : ContentItem :=
  ⟨"A", 1, "a", "/posts/a/", "", "posts", "content/posts/a/post.md",
    ["x", "y"], none, some "s", false⟩

/-- Item loaded second in the C4 scenario: newer date, same shortname. -/
def itemB : ContentItem :=
  ⟨"B", 2, "b", "/posts/b/", "", "posts", "content/posts/b/post.md",
    ["y", "z"], none, some "s", false⟩

/-- C4 counterexample: with load order `[itemA, itemB]` the last-loaded
item is `itemB`, yet the shortname index resolves `s` to `itemA`, the
earlier-dated duplicate, because the index is built after the
date-descending sort. -/
theorem c4_counterexample :
    [itemA, itemB].getLast? = some itemB ∧
    dictLookup (SiteBuilder.shortname_map [itemA, itemB]) "s" = some itemA ∧
    itemA ≠ itemB := by
  refine ⟨rfl, by with_unfolding_all decide, by with_unfolding_all decide⟩

/-- Target item of the C1 scenario, with url `/posts/s1/`. -/
def itemS1 : ContentItem :=
  ⟨"Target", 1, "s1", "/posts/s1/", "", "posts", "content/posts/s1/post.md",
    [], none, some "s1", false⟩

/-- C1 counterexample: resolving shortname `s1` (target url `/posts/s1/`)
from the page at `/posts/other/` emits the href `../s1`, because
`os.path.relpath` never keeps a trailing slash, so the claimed href
`../s1/` is not produced. -/
theorem c1_counterexample :
    SiteBuilder.resolve_internal_link [("s1", itemS1)] (some "/posts/other/")
        "s1" none = ResolvedRef.anchor "../s1" "Target" ∧
    ResolvedRef.anchor "../s1" "Target" ≠ ResolvedRef.anchor "../s1/" "Target" := by
  refine ⟨by with_unfolding_all decide, by with_unfolding_all decide⟩

/-- C1 amended: a placeholder whose shortname resolves emits an anchor
whose href is the target url rewritten relative to the current page url
(a current url ending in a slash counts as a directory, otherwise its
final segment is removed), and whose text is the explicit display text
when present, else the target title; the `/posts/s1/` target resolved
from `/posts/other/` yields `../s1`, without a trailing slash. -/
theorem c1_relative_reference (m : List (String × ContentItem))
    (cur sn : String) (text : Option String) (p : ContentItem)
    (h : dictLookup m sn = some p) :
    SiteBuilder.resolve_internal_link m (some cur) sn text =
      ResolvedRef.anchor (SiteBuilder.get_relative_path cur p.url)
        (text.getD p.title) ∧
    SiteBuilder.get_relative_path "/posts/other/" "/posts/s1/" = "../s1" := by
  constructor
  · simp [SiteBuilder.resolve_internal_link, h]
  · with_unfolding_all decide

/-- Witness for c1_relative_reference on the concrete C1 scenario. -/
theorem c1_relative_reference_witness :
    dictLookup [("s1", itemS1)] "s1" = some itemS1 ∧
    SiteBuilder.resolve_internal_link [("s1", itemS1)] (some "/posts/other/")
        "s1" (some "here") =
      ResolvedRef.anchor
        (SiteBuilder.get_relative_path "/posts/other/" itemS1.url)
        ((some "here").getD itemS1.title) :=
  ⟨by with_unfolding_all decide,
    (c1_relative_reference [("s1", itemS1)] "/posts/other/" "s1" (some "here")
      itemS1 (by with_unfolding_all decide)).1⟩

/-- C10: every loaded item gets the url `/\x7bsection\x7d/\x7bslug\x7d/`
with the section localized through the slug table and defaulting to the
section name, except that items of the `pages` section get `/\x7bslug\x7d/`
with no section segment; this agrees with the spec-side description. -/
theorem c10_url_shape (url_slugs : List (String × String))
    (sectionName slug : String) :
    ContentLoader.buildUrl url_slugs sectionName slug =
      specUrl url_slugs sectionName slug ∧
    (sectionName = "pages" →
      ContentLoader.buildUrl url_slugs sectionName slug = "/" ++ slug ++ "/") ∧
    (sectionName ≠ "pages" →
      ContentLoader.buildUrl url_slugs sectionName slug =
        "/" ++ ((dictLookup url_slugs sectionName).getD sectionName) ++ "/" ++
          slug ++ "/") := by
  refine ⟨rfl, ?_, ?_⟩
  · intro h
    simp [ContentLoader.buildUrl, h]
  · intro h
    simp [ContentLoader.buildUrl, h]

/-- Witness for c10_url_shape: a page item and a localized section item. -/
theorem c10_url_shape_witness :
    ContentLoader.buildUrl [("posts", "artiklar")] "pages" "about" = "/about/" ∧
    ContentLoader.buildUrl [("posts", "artiklar")] "posts" "x" = "/artiklar/x/" := by
  constructor
  · exact (c10_url_shape [("posts", "artiklar")] "pages" "about").2.1 rfl
  · have h := (c10_url_shape [("posts", "artiklar")] "posts" "x").2.2 (by decide)
    rw [h]
    with_unfolding_all decide

/-- C5: a tag invocation whose name is not in the handler registry
reports a diagnostic and returns the original matched text (group 0)
unchanged, never an exception (the expander is a total function); in
particular the whole-document expansion of the unknown-name document
returns it verbatim with one warning printed. -/
theorem c5_unknown_tag_passthrough (reg : List (String × Handler))
    (f : List Char → String × List String) (m : TagMatch)
    (h : dictLookup reg (String.mk m.name) = none) :
    replace_match reg f m =
      (String.mk m.group0,
        ["Warning: Shortcode \x27" ++ String.mk m.name ++ "\x27 not found."]) ∧
    process shortcodesRegistry "\x7b\x7b< nope a b >\x7d\x7d" =
      ("\x7b\x7b< nope a b >\x7d\x7d",
        ["Warning: Shortcode \x27nope\x27 not found."]) := by
  constructor
  · simp [replace_match, h]
  · with_unfolding_all decide

/-- Witness for c5_unknown_tag_passthrough at a concrete unregistered
match in the discovered registry. -/
theorem c5_unknown_tag_passthrough_witness :
    replace_match shortcodesRegistry (fun _ => ("", []))
        ⟨"nope".data, "a b".data, none, "\x7b\x7b< nope a b >\x7d\x7d".data, []⟩ =
      ("\x7b\x7b< nope a b >\x7d\x7d",
        ["Warning: Shortcode \x27nope\x27 not found."]) ∧
    process shortcodesRegistry "\x7b\x7b< nope a b >\x7d\x7d" =
      ("\x7b\x7b< nope a b >\x7d\x7d",
        ["Warning: Shortcode \x27nope\x27 not found."]) :=
  c5_unknown_tag_passthrough shortcodesRegistry (fun _ => ("", []))
    ⟨"nope".data, "a b".data, none, "\x7b\x7b< nope a b >\x7d\x7d".data, []⟩ rfl

/-- Inner document of the C6 scenario: a lone rating tag. -/
def ratingDoc : String := "\x7b\x7b< rating 9 >\x7d\x7d"

/-- Outer document of the C6 scenario: a spoiler block holding the rating
tag. -/
def spoilerRatingDoc : String :=
  "\x7b\x7b< spoiler \"T\" >\x7d\x7d" ++ ratingDoc ++ "\x7b\x7b< /spoiler >\x7d\x7d"

/-- C6: a registered block invocation first expands the captured inner
text recursively and binds the expanded text as the implicit keyword
argument `content` before the handler is invoked; concretely, expanding
the spoiler block around a rating tag yields the spoiler html whose
content is the already-expanded rating span. -/
theorem c6_block_content_expansion (reg : List (String × Handler))
    (f : List Char → String × List String) (m : TagMatch) (h : Handler)
    (inner : List Char) (hlook : dictLookup reg (String.mk m.name) = some h)
    (hinner : m.inner = some inner) :
    replace_match reg f m =
      (let pa := parse_args (String.mk m.argsText)
       let res := invoke_handler (String.mk m.name) h pa.1
         (dictInsert pa.2.1 "content" (f inner).1)
       (res.1, pa.2.2 ++ (f inner).2 ++ res.2)) ∧
    (process shortcodesRegistry spoilerRatingDoc).1 =
      spoilerHtml "T" (process shortcodesRegistry ratingDoc).1 ∧
    (process shortcodesRegistry ratingDoc).1 =
      "<span class=\"review-stars\" title=\"9.0/10.0\">★★★★⯨</span>" := by
  refine ⟨?_, ?_, ?_⟩
  · rcases hpa : parse_args (String.mk m.argsText) with ⟨args, kwargs, pdiags⟩
    rcases hfi : f inner with ⟨txt, ds⟩
    simp [replace_match, hlook, hinner, hpa, hfi]
  · with_unfolding_all decide
  · with_unfolding_all decide

/-- Witness for c6_block_content_expansion at the concrete spoiler block
match of the C6 scenario. -/
theorem c6_block_content_expansion_witness :
    replace_match shortcodesRegistry (fun _ => ("RATED", []))
        ⟨"spoiler".data, "\"T\"".data, some ratingDoc.data,
          spoilerRatingDoc.data, []⟩ =
      (let pa := parse_args (String.mk "\"T\"".data)
       let res := invoke_handler (String.mk "spoiler".data) spoiler_render pa.1
         (dictInsert pa.2.1 "content"
           ((fun _ => (("RATED" : String), ([] : List String))) ratingDoc.data).1)
       (res.1, pa.2.2 ++
         ((fun _ => (("RATED" : String), ([] : List String))) ratingDoc.data).2 ++
           res.2)) :=
  (c6_block_content_expansion shortcodesRegistry (fun _ => ("RATED", []))
    ⟨"spoiler".data, "\"T\"".data, some ratingDoc.data, spoilerRatingDoc.data, []⟩
    spoiler_render ratingDoc.data rfl rfl).1

/-- Helper: membership in the model of Python `range(lo, hi + 1)`. -/
theorem mem_intRange (lo hi x : ℤ) : x ∈ intRange lo hi ↔ lo ≤ x ∧ x ≤ hi := by
  unfold intRange
  constructor
  · intro h
    rcases List.mem_map.mp h with ⟨k, hk, rfl⟩
    rw [List.mem_range] at hk
    constructor <;> omega
  · rintro ⟨h1, h2⟩
    exact List.mem_map.mpr ⟨(x - lo).toNat, List.mem_range.mpr (by omega), by omega⟩

/-- Helper: the model of Python `range` is strictly increasing. -/
theorem pairwise_intRange (lo hi : ℤ) : (intRange lo hi).Pairwise (· < ·) := by
  unfold intRange
  refine List.pairwise_map.mpr ?_
  exact (List.pairwise_lt_range _).imp (by omega)

/-- C7: for every page count and cursor the pagination window of the code
equals the window described by the spec (all pages when at most seven,
else the ascending union of the first page, the last page and the five
pages centered on the cursor clipped to range, with a gap marker between
non-adjacent entries); in particular ten pages with the cursor on page
five yield `[1, gap, 3, 4, 5, 6, 7, gap, 10]`. -/
theorem c7_pagination_window :
    (∀ total_pages page_num : ℤ,
      SiteBuilder.page_window total_pages page_num =
        specPageWindow total_pages page_num) ∧
    SiteBuilder.page_window 10 5 =
      [some 1, none, some 3, some 4, some 5, some 6, some 7, none, some 10] := by
  constructor
  · intro total_pages page_num
    unfold SiteBuilder.page_window specPageWindow
    by_cases h7 : total_pages ≤ 7
    · simp [h7]
    · simp only [h7, if_neg, if_false]
      congr 1
      set cand := [1, total_pages] ++
        (intRange (page_num - 2) (page_num + 2)).filter
          (fun i => decide (1 ≤ i ∧ i ≤ total_pages)) with hcand
      have hle_tot : ∀ a b : ℤ, decide (a ≤ b) = true ∨ decide (b ≤ a) = true := by
        intro a b
        rcases le_total a b with h | h
        · exact Or.inl (by simpa using h)
        · exact Or.inr (by simpa using h)
      have hle_trans : ∀ a b c : ℤ, decide (a ≤ b) = true → decide (b ≤ c) = true →
          decide (a ≤ c) = true := by
        intro a b c h1 h2
        simp only [decide_eq_true_eq] at h1 h2 ⊢
        omega
      have hsort1 : (stableSort (fun a b : ℤ => decide (a ≤ b)) cand.dedup).Sorted
          (· ≤ ·) :=
        (pairwise_stableSort _ hle_tot hle_trans cand.dedup).imp
          (fun h => by simpa using h)
      have hnd1 : (stableSort (fun a b : ℤ => decide (a ≤ b)) cand.dedup).Nodup :=
        (stableSort_perm _ cand.dedup).nodup_iff.mpr (List.nodup_dedup cand)
      have hpw2 : ((intRange 1 total_pages).filter
          (fun i => decide (i = 1 ∨ i = total_pages ∨
            (page_num - 2 ≤ i ∧ i ≤ page_num + 2)))).Pairwise (· < ·) :=
        List.Pairwise.filter _ (pairwise_intRange 1 total_pages)
      have hnd2 := hpw2.imp (fun h => ne_of_lt h)
      have hsort2 := hpw2.imp (fun h => le_of_lt h)
      refine List.eq_of_perm_of_sorted ?_ hsort1 hsort2
      refine (List.perm_ext_iff_of_nodup hnd1 hnd2).mpr ?_
      intro a
      rw [mem_stableSort, List.mem_dedup]
      simp only [hcand, List.mem_append, List.mem_cons, List.mem_filter,
        mem_intRange, decide_eq_true_eq, List.not_mem_nil, or_false]
      constructor
      · intro h
        rcases h with (rfl | rfl) | ⟨⟨hh1, hh2⟩, hh3, hh4⟩
        · exact ⟨⟨by omega, by omega⟩, Or.inl rfl⟩
        · exact ⟨⟨by omega, by omega⟩, Or.inr (Or.inl rfl)⟩
        · exact ⟨⟨by omega, by omega⟩, Or.inr (Or.inr ⟨by omega, by omega⟩)⟩
      · rintro ⟨⟨ha1, ha2⟩, hp⟩
        rcases hp with rfl | rfl | hp
        · exact Or.inl (Or.inl rfl)
        · exact Or.inl (Or.inr rfl)
        · exact Or.inr ⟨⟨by omega, by omega⟩, by omega, by omega⟩
  · with_unfolding_all decide

/-- C8: the related-items list contains only other items of the
collection sharing at least one tag with the current item (scored by the
size of the tag intersection), is truncated to at most `limit` entries
(the parameter defaults to 3), and is ordered by score descending with
ties broken by date descending. -/
theorem c8_related_posts (all_posts : List ContentItem)
    (current_post : ContentItem) (limit : ℕ) :
    (∀ p ∈ SiteBuilder.get_related_posts all_posts current_post limit,
      p ∈ all_posts ∧ p ≠ current_post ∧ 0 < tagOverlap current_post p) ∧
    (SiteBuilder.get_related_posts all_posts current_post limit).length ≤ limit ∧
    (SiteBuilder.get_related_posts all_posts current_post limit).Pairwise
      (fun a b => tagOverlap current_post b < tagOverlap current_post a ∨
        (tagOverlap current_post b = tagOverlap current_post a ∧
          b.date ≤ a.date)) := by
  unfold SiteBuilder.get_related_posts
  by_cases hempty : current_post.tags.isEmpty
  · simp [hempty]
  · simp only [hempty, Bool.false_eq_true, if_false]
    set cands := (all_posts.filter
      (fun post => decide (post ≠ current_post ∧
        0 < tagOverlap current_post post))).map
      (fun post => (tagOverlap current_post post, post)) with hcands
    have hmemc : ∀ x ∈ cands, x.1 = tagOverlap current_post x.2 ∧
        x.2 ∈ all_posts ∧ x.2 ≠ current_post ∧
          0 < tagOverlap current_post x.2 := by
      intro x hx
      rcases List.mem_map.mp hx with ⟨p, hp, rfl⟩
      rcases List.mem_filter.mp hp with ⟨hpmem, hpcond⟩
      rcases of_decide_eq_true hpcond with ⟨hne, hov⟩
      exact ⟨rfl, hpmem, hne, hov⟩
    have hmemt : ∀ x ∈ (stableSort relKey cands).take limit, x ∈ cands := by
      intro x hx
      exact (mem_stableSort relKey cands x).mp ((List.take_sublist _ _).mem hx)
    refine ⟨?_, ?_, ?_⟩
    · intro p hp
      rcases List.mem_map.mp hp with ⟨x, hx, rfl⟩
      rcases hmemc x (hmemt x hx) with ⟨-, h1, h2, h3⟩
      exact ⟨h1, h2, h3⟩
    · simp only [List.length_map]
      exact (List.length_take _ _).le.trans (Nat.min_le_left _ _)
    · have htot : ∀ a b, relKey a b = true ∨ relKey b a = true := by
        intro a b
        simp only [relKey, decide_eq_true_eq]
        omega
      have htrans : ∀ a b c, relKey a b = true → relKey b c = true →
          relKey a c = true := by
        intro a b c h1 h2
        simp only [relKey, decide_eq_true_eq] at h1 h2 ⊢
        omega
      have hpw := (pairwise_stableSort relKey htot htrans cands).sublist
        (List.take_sublist limit _)
      refine List.pairwise_map.mpr ?_
      refine hpw.imp_of_mem ?_
      intro a b ha hb hr
      rcases hmemc a (hmemt a ha) with ⟨hka, -, -, -⟩
      rcases hmemc b (hmemt b hb) with ⟨hkb, -, -, -⟩
      simp only [relKey, decide_eq_true_eq] at hr
      rw [hka, hkb] at hr
      exact hr

/-- Witness for c8_related_posts on the two-item scenario of the spec:
itemA has tags x and y, itemB has tags y and z, so itemB appears in the
related list of itemA with one shared tag. -/
theorem c8_related_posts_witness :
    SiteBuilder.get_related_posts [itemA, itemB] itemA 3 = [itemB] ∧
    (itemB ∈ [itemA, itemB] ∧ itemB ≠ itemA ∧ 0 < tagOverlap itemA itemB) ∧
    (SiteBuilder.get_related_posts [itemA, itemB] itemA 3).length ≤ 3 :=
  ⟨by with_unfolding_all decide,
    (c8_related_posts [itemA, itemB] itemA 3).1 itemB
      (by with_unfolding_all decide),
    (c8_related_posts [itemA, itemB] itemA 3).2.1⟩

/-- Helper: glyph statistics of the shared star string builder under the
constraints the renderers establish. -/
theorem starGlyphs_stats (full : ℤ) (half : Bool) (empty : ℤ)
    (h0 : 0 ≤ full) (hemp : empty = 5 - full - (if half then 1 else 0))
    (h5 : full + (if half then 1 else 0) ≤ 5) :
    ((starGlyphs full half empty).data.count '★' : ℤ) = full ∧
    ((starGlyphs full half empty).data.count '⯨' : ℤ) = (if half then 1 else 0) ∧
    ((starGlyphs full half empty).data.count '☆' : ℤ) =
      5 - full - (if half then 1 else 0) ∧
    ((starGlyphs full half empty).data.length : ℤ) = 5 := by
  cases half <;> subst hemp
  · have h5b : full ≤ 5 := by simpa using h5
    simp [starGlyphs, List.count_append, List.count_replicate,
      String.data_append, String.mk]
    omega
  · have h5b : full + 1 ≤ 5 := by simpa using h5
    simp [starGlyphs, List.count_append, List.count_replicate,
      String.data_append, String.mk]
    omega

/-- C9: for a review rating on the 0-10 scale, the star renderer computes
`stars = rating/2` and emits `floor(stars)` full-star glyphs, one
half-star glyph exactly when the fractional remainder is at least one
half, and empty-star glyphs for the remaining slots, totaling exactly
five glyphs. -/
theorem c9_star_rendering (rating : ℚ) (h0 : 0 ≤ rating) (h10 : rating ≤ 10) :
    ((Review.star_string (some rating)).data.count '★' : ℤ) = ⌊rating / 2⌋ ∧
    ((Review.star_string (some rating)).data.count '⯨' : ℤ) =
      (if (1 : ℚ)/2 ≤ rating / 2 - ⌊rating / 2⌋ then 1 else 0) ∧
    ((Review.star_string (some rating)).data.count '☆' : ℤ) =
      5 - ⌊rating / 2⌋ -
        (if (1 : ℚ)/2 ≤ rating / 2 - ⌊rating / 2⌋ then 1 else 0) ∧
    ((Review.star_string (some rating)).data.length : ℤ) = 5 := by
  have hsc0 : (0:ℚ) ≤ rating / 2 := by positivity
  have hf0 : 0 ≤ ⌊rating / 2⌋ := Int.floor_nonneg.mpr hsc0
  have hf5 : ⌊rating / 2⌋ ≤ 5 := by
    have h5 : rating / 2 ≤ 5 := by linarith
    simpa using Int.floor_le_floor h5
  have hpy : pyInt (rating / 2) = ⌊rating / 2⌋ := by
    unfold pyInt
    rw [if_neg (not_lt.mpr hsc0)]
  by_cases hhalf : (1:ℚ)/2 ≤ rating / 2 - ⌊rating / 2⌋
  · have hf4 : ⌊rating / 2⌋ ≤ 4 := by
      by_contra hc
      have h5 : ⌊rating / 2⌋ = 5 := by omega
      rw [h5] at hhalf
      push_cast at hhalf
      have hle : rating / 2 ≤ 5 := by linarith
      linarith
    have hd2 : (decide ((1:ℚ)/2 ≤ rating / 2 - (⌊rating / 2⌋ : ℚ))) = true :=
      decide_eq_true hhalf
    have hss : Review.star_string (some rating) =
        starGlyphs ⌊rating / 2⌋ true (5 - ⌊rating / 2⌋ - 1) := by
      simp only [Review.star_string, hpy, hd2, eq_self_iff_true, if_true]
    rw [hss, if_pos hhalf]
    have key := starGlyphs_stats ⌊rating / 2⌋ true (5 - ⌊rating / 2⌋ - 1) hf0
      (by simp) (by simp only [if_true, eq_self_iff_true]; omega)
    simpa only [eq_self_iff_true, if_true] using key
  · have hd2 : (decide ((1:ℚ)/2 ≤ rating / 2 - (⌊rating / 2⌋ : ℚ))) = false :=
      decide_eq_false hhalf
    have hss : Review.star_string (some rating) =
        starGlyphs ⌊rating / 2⌋ false (5 - ⌊rating / 2⌋ - 0) := by
      simp only [Review.star_string, hpy, hd2, Bool.false_eq_true, if_false]
    rw [hss, if_neg hhalf]
    have key := starGlyphs_stats ⌊rating / 2⌋ false (5 - ⌊rating / 2⌋ - 0) hf0
      (by simp) (by simp only [Bool.false_eq_true, if_false]; omega)
    simpa only [Bool.false_eq_true, if_false] using key

/-- Witness for c9_star_rendering: rating 9 gives four full stars, one
half star and no empty star; rating 8 gives four full, no half and one
empty. -/
theorem c9_star_rendering_witness :
    Review.star_string (some 9) = "★★★★⯨" ∧
    Review.star_string (some 8) = "★★★★☆" ∧
    ((Review.star_string (some 9)).data.count '★' : ℤ) = ⌊(9:ℚ) / 2⌋ ∧
    ((Review.star_string (some 8)).data.count '★' : ℤ) = ⌊(8:ℚ) / 2⌋ :=
  ⟨by with_unfolding_all decide, by with_unfolding_all decide,
    (c9_star_rendering 9 (by norm_num) (by norm_num)).1,
    (c9_star_rendering 8 (by norm_num) (by norm_num)).1⟩
